import Mathlib

/-!
Verification of the simplewebsockets server protocol engine.

Shallow embedding of the Go sources: the frame codec (FrameToBytes,
BytesToFrame, the control-frame constructors and msgToFrames from the frame
file) and the connection engine (frameSize, the incremental frame-extraction
loop of handleConnection, processFrame, and the close-state transitions from
the server file).

Bytes are modelled as Nat (each produced byte is < 256); the Go int64 values
(PayloadLength, maxFrameSize, frame sizes) are modelled as Int, with two
helpers making the 64-bit machine arithmetic explicit: i64ofU64 reinterprets
an unsigned 64-bit value as a signed one, and wrap64 reduces an Int to the
int64 range after an addition that may overflow.
-/

namespace SimpleWS

/-- A WebSocket frame, mirroring the Go struct Frame.  Opcode is a Go byte;
MaskKey is the Go [4]byte array, modelled as a quadruple. -/
structure Frame where
  FIN : Bool
  Opcode : Nat
  Mask : Bool
  MaskKey : Nat × Nat × Nat × Nat
  Payload : List Nat
  PayloadLength : Int
deriving DecidableEq, Repr

/-- Byte i mod 4 of the mask key, as used by the unmasking loop. -/
def maskKeyAt (k : Nat × Nat × Nat × Nat) : Nat → Nat
  | 0 => k.1
  | 1 => k.2.1
  | 2 => k.2.2.1
  | _ => k.2.2.2

/-- Go copy into a zero-initialised region of size n: takes at most n source
bytes and leaves trailing zero bytes when the source is shorter. -/
def copyFill (n : Nat) (src : List Nat) : List Nat :=
  src.take n ++ List.replicate (n - src.length) 0

/-- binary.BigEndian.Uint16 of the two bytes at offset o. -/
def beU16 (data : List Nat) (o : Nat) : Nat :=
  data.getD o 0 * 256 + data.getD (o + 1) 0

/-- binary.BigEndian.Uint64 of the eight bytes at offset o. -/
def beU64 (data : List Nat) (o : Nat) : Nat :=
  data.getD o 0 * 2 ^ 56 + data.getD (o + 1) 0 * 2 ^ 48 +
  data.getD (o + 2) 0 * 2 ^ 40 + data.getD (o + 3) 0 * 2 ^ 32 +
  data.getD (o + 4) 0 * 2 ^ 24 + data.getD (o + 5) 0 * 2 ^ 16 +
  data.getD (o + 6) 0 * 2 ^ 8 + data.getD (o + 7) 0

/-- binary.BigEndian.PutUint64: the eight big-endian bytes of u. -/
def putU64 (u : Nat) : List Nat :=
  [u / 2 ^ 56 % 256, u / 2 ^ 48 % 256, u / 2 ^ 40 % 256, u / 2 ^ 32 % 256,
   u / 2 ^ 24 % 256, u / 2 ^ 16 % 256, u / 2 ^ 8 % 256, u % 256]

/-- Go int64(u) for an unsigned 64-bit u: values with the high bit set wrap
to negative. -/
def i64ofU64 (u : Nat) : Int :=
  if u < 2 ^ 63 then (u : Int) else (u : Int) - 2 ^ 64

/-- Reduce an Int to the int64 range, as Go addition of int64 values does on
overflow. -/
def wrap64 (x : Int) : Int :=
  (x + 2 ^ 63) % 2 ^ 64 - 2 ^ 63

/-- Go byte(x) for an int64 x: the low 8 bits (the truncating Go conversion,
which for modulus 256 is the Euclidean remainder). -/
def byteOfInt (x : Int) : Nat :=
  (x % 256).toNat

/-- The number of extended payload-length bytes chosen by FrameToBytes
(the payloadLenBytes variable of the source). -/
def payloadLenBytes (pl : Int) : Nat :=
  if pl < 126 then 0 else if pl ≤ 65535 then 2 else 8

/-- Frame.FrameToBytes from the frame file: serialises a frame into its wire
bytes.  The source allocates a zeroed buffer and writes header, optional
extended length, optional mask key and payload at fixed offsets; the model
builds the same bytes as a list in the same three length-class branches.
The source never applies the mask key to the payload bytes: the payload is
written with copy, unchanged.  (A frame with negative PayloadLength would
make Go panic allocating the buffer; such frames are outside every use in
the repository and the model simply truncates via Int.toNat there.) -/
def FrameToBytes (f : Frame) : List Nat :=
  let b0 := (if f.FIN then 128 else 0) ||| f.Opcode
  let maskBytes := if f.Mask then [f.MaskKey.1, f.MaskKey.2.1, f.MaskKey.2.2.1, f.MaskKey.2.2.2] else []
  if f.PayloadLength < 126 then
    b0 :: ((if f.Mask then 128 else 0) ||| byteOfInt f.PayloadLength) ::
      (maskBytes ++ copyFill f.PayloadLength.toNat f.Payload)
  else if f.PayloadLength ≤ 65535 then
    b0 :: ((if f.Mask then 128 else 0) ||| 126) ::
      byteOfInt (f.PayloadLength / 256) :: byteOfInt f.PayloadLength ::
      (maskBytes ++ copyFill f.PayloadLength.toNat f.Payload)
  else
    b0 :: ((if f.Mask then 128 else 0) ||| 127) ::
      (putU64 (f.PayloadLength % 2 ^ 64).toNat ++
        (maskBytes ++ copyFill f.PayloadLength.toNat f.Payload))

/-- Result of BytesToFrame: a frame, a returned Go error, or a Go runtime
panic (make with a negative length). -/
inductive DResult where
  | ok (f : Frame)
  | err (msg : String)
  | panicked (msg : String)
deriving DecidableEq, Repr

/-- BytesToFrame from the frame file: parses wire bytes into a frame.  The
source reads FIN and the opcode from byte 0, mask bit and 7-bit length from
byte 1, then the extended length, the mask key and the payload, with a
length check before each read; it unmasks the payload in place when the mask
bit is set.  It performs no validation beyond the length checks: RSV bits
are never examined, control-frame constraints are never checked, and an
8-byte extended length with its high bit set becomes a negative
PayloadLength, on which the payload allocation (make) panics at runtime. -/
def BytesToFrame (data : List Nat) : DResult :=
  if data.length < 2 then .err "frame too short" else
  let firstByte := data.getD 0 0
  let fin := firstByte &&& 128 != 0
  let opcode := firstByte &&& 15
  let secondByte := data.getD 1 0
  let mask := secondByte &&& 128 != 0
  let payloadLen := secondByte &&& 127
  if payloadLen = 126 ∧ data.length < 4 then .err "frame too short for 16-bit length"
  else if payloadLen = 127 ∧ data.length < 10 then .err "frame too short for 64-bit length"
  else
    let plen : Int :=
      if payloadLen < 126 then (payloadLen : Int)
      else if payloadLen = 126 then (beU16 data 2 : Int)
      else i64ofU64 (beU64 data 2)
    let offset : Nat := if payloadLen < 126 then 2 else if payloadLen = 126 then 4 else 10
    if mask ∧ data.length < offset + 4 then .err "frame too short for mask key"
    else
      let maskKey := if mask then
          (data.getD offset 0, data.getD (offset + 1) 0, data.getD (offset + 2) 0, data.getD (offset + 3) 0)
        else (0, 0, 0, 0)
      let offset2 := if mask then offset + 4 else offset
      if (data.length : Int) < (offset2 : Int) + plen then .err "frame too short for payload"
      else if plen < 0 then .panicked "makeslice: len out of range"
      else
        let payload0 := (data.drop offset2).take plen.toNat
        let payload := if mask then payload0.mapIdx (fun i b => b ^^^ maskKeyAt maskKey (i % 4)) else payload0
        .ok { FIN := fin, Opcode := opcode, Mask := mask, MaskKey := maskKey,
              Payload := payload, PayloadLength := plen }

/-- NewFrame, from the frame-file revision that also defines the
control-frame constructors (src/unnamed/part_003): it uses the masked
argument as given.  (An older revision, src/frame.go, additionally forces
masked to true whenever len of the [4]byte mask key is positive — which is
always — but that revision does not contain the control-frame
constructors.) -/
def NewFrame (opcode : Nat) (data : List Nat) (isFin : Bool) (masked : Bool)
    (maskKey : Nat × Nat × Nat × Nat) : Frame :=
  { FIN := isFin, Opcode := opcode, Mask := masked, MaskKey := maskKey,
    Payload := data, PayloadLength := (data.length : Int) }

/-- NewCloseFrame: close frame with a 2-byte status and a reason. -/
def NewCloseFrame (status : Nat × Nat) (reason : List Nat) : Except String Frame :=
  if 2 + reason.length > 125 then
    .error "error: control frame (close) should not have body (status + reason) larger than 125 bytes"
  else
    .ok (NewFrame 8 (status.1 :: status.2 :: reason) true false (0, 0, 0, 0))

/-- NewEmptyCloseFrame: close frame with no body. -/
def NewEmptyCloseFrame : Frame :=
  NewFrame 8 [] true false (0, 0, 0, 0)

/-- NewPingFrame. -/
def NewPingFrame (body : List Nat) : Except String Frame :=
  if body.length > 125 then
    .error "error: control frame (ping) must not have a body greater than 125 bytes"
  else
    .ok (NewFrame 9 body true false (0, 0, 0, 0))

/-- NewPongFrame. -/
def NewPongFrame (body : List Nat) : Except String Frame :=
  if body.length > 125 then
    .error "error: control frame (pong) must not have a body greater than 125 bytes"
  else
    .ok (NewFrame 10 body true false (0, 0, 0, 0))

/-- Result of a Go function that either returns normally or panics. -/
inductive GoRes (α : Type) where
  | ok (a : α)
  | panicked (msg : String)
deriving DecidableEq, Repr

/-- msgToFrames from the frame file, with the opcode of the first frame as a
parameter: the Go generic chooses 1 for string messages and 2 for []byte
messages via a type switch, and is otherwise byte-for-byte this algorithm.
For fs <= 0 it panics.  frameCount is the Go ceiling division of ints, which
for the positive operands here agrees with Nat division. -/
def msgToFramesCore (opcode : Nat) (msgBytes : List Nat) (fs : Int) : GoRes (List Frame) :=
  if fs ≤ 0 then .panicked "frame size must be positive"
  else if msgBytes.length = 0 then
    .ok [{ FIN := true, Opcode := opcode, Mask := false, MaskKey := (0, 0, 0, 0),
           Payload := [], PayloadLength := 0 }]
  else
    let k := fs.toNat
    let msgLen := msgBytes.length
    let frameCount := (msgLen + k - 1) / k
    .ok ((List.range frameCount).map (fun i =>
      let start := i * k
      let endIdx := min (start + k) msgLen
      let payload := (msgBytes.drop start).take (endIdx - start)
      { FIN := i == frameCount - 1,
        Opcode := if i > 0 then 0 else opcode,
        Mask := false,
        MaskKey := (0, 0, 0, 0),
        Payload := payload,
        PayloadLength := (payload.length : Int) }))

/-- msgToFrames instantiated at string messages (opcode 1, text). -/
def msgToFramesText (msg : List Nat) (fs : Int) : GoRes (List Frame) :=
  msgToFramesCore 1 msg fs

/-- msgToFrames instantiated at []byte messages (opcode 2, binary). -/
def msgToFramesBin (msg : List Nat) (fs : Int) : GoRes (List Frame) :=
  msgToFramesCore 2 msg fs

/-! ## Connection engine (server file, src/unnamed/part_007) -/

/-- frameSize from the server file: computes, from the buffered prefix, the
total byte size of the next frame; -1 means the header is not complete yet,
-2 means the frame exceeds maxFrameSize.  All arithmetic is Go int64: the
8-byte extended length is reinterpreted as a signed value and the final
addition wraps. -/
def frameSize (data : List Nat) (maxFrameSize : Int) : Int :=
  if data.length < 2 then -1
  else
    let b1 := data.getD 1 0
    let payloadLen0 := b1 &&& 127
    let masked := b1 &&& 128 != 0
    if payloadLen0 = 126 ∧ data.length < 4 then -1
    else if payloadLen0 = 127 ∧ data.length < 10 then -1
    else
      let payloadLen : Int :=
        if payloadLen0 = 126 then (beU16 data 2 : Int)
        else if payloadLen0 = 127 then i64ofU64 (beU64 data 2)
        else (payloadLen0 : Int)
      let headerSize : Nat :=
        (if payloadLen0 = 126 then 4 else if payloadLen0 = 127 then 10 else 2) +
        (if masked then 4 else 0)
      let total := wrap64 ((headerSize : Int) + payloadLen)
      if total > maxFrameSize then -2 else total

/-! ## Message assembly (processFrame) -/

/-- Observable outcome of one processFrame call: the new in-progress message
buffer, the Close call made (status and reason), the pong sent, the message
delivered to OnMessage, whether an error was returned (stopping the read
loop), and whether the close-frame path (handleCloseFrame) was taken. -/
structure PFOut where
  msg : List Nat
  closeCall : Option (Nat × String)
  pongSent : Option (List Nat)
  delivered : Option (List Nat)
  errored : Bool
  closeFrameHandled : Bool
deriving DecidableEq, Repr

/-- PFOut with no effects. -/
def pfNoop (msg : List Nat) : PFOut :=
  { msg := msg, closeCall := none, pongSent := none, delivered := none,
    errored := false, closeFrameHandled := false }

/-- After a data-opcode branch of the switch: deliver the assembled message
when FIN is set (the source condition also allows opcodes 1, 2, 0, which is
exactly the set reaching this point without error). -/
def pfFinish (fin : Bool) (msg2 : List Nat) : PFOut :=
  if fin then { pfNoop [] with delivered := some msg2 }
  else pfNoop msg2

/-- processFrame from the server file: the opcode switch of the message
assembler.  Note that the connection maxMessageSize (the maxSize field of
the Go Connection) is never consulted: data payloads are appended without
any size check.  handleCloseFrame always returns a non-nil error
("connection closed"), so a close frame sets errored. -/
def processFrame (fr : Frame) (msg : List Nat) : PFOut :=
  if fr.Opcode = 0 then
    if msg.length = 0 then
      { pfNoop msg with closeCall := some (1002, "Unexpected continuation frame"), errored := true }
    else pfFinish fr.FIN (msg ++ fr.Payload)
  else if fr.Opcode = 1 then
    if msg.length > 0 then
      { pfNoop msg with closeCall := some (1002, "Unexpected text frame"), errored := true }
    else pfFinish fr.FIN (msg ++ fr.Payload)
  else if fr.Opcode = 2 then
    if msg.length > 0 then
      { pfNoop msg with closeCall := some (1002, "Unexpected binary frame"), errored := true }
    else pfFinish fr.FIN (msg ++ fr.Payload)
  else if fr.Opcode = 8 then
    { pfNoop msg with closeFrameHandled := true, errored := true }
  else if fr.Opcode = 9 then
    { pfNoop msg with pongSent := some fr.Payload }
  else if fr.Opcode = 10 then
    pfNoop msg
  else
    { pfNoop msg with closeCall := some (1002, "Unknown opcode"), errored := true }

/-- assemblyOk msg frames: running processFrame over the frames in order,
starting from the in-progress message buffer msg, never returns an error —
no close frame, no out-of-sequence data frame, no unknown opcode. -/
def assemblyOk : List Nat → List Frame → Bool
  | _, [] => true
  | msg, f :: fs => !(processFrame f msg).errored && assemblyOk (processFrame f msg).msg fs

/-- The in-progress message buffer after processFrame has run over a list of
frames in order. -/
def msgAfterList (msg : List Nat) : List Frame → List Nat
  | [] => msg
  | f :: fs => msgAfterList (processFrame f msg).msg fs

/-! ## The read loop of handleConnection -/

/-- Ways the frame-extraction loop of handleConnection stops the connection:
Close(1009) on an oversize frame, Close(1002) on a decode error, a Go panic
slicing the buffer with a negative size, a Go panic inside BytesToFrame, or
processFrame returning an error (a close frame or an assembly violation),
after which handleConnection returns. -/
inductive ReadEvent where
  | frameTooLarge
  | protocolError
  | slicePanic
  | decodePanic
  | processError
deriving DecidableEq, Repr

/-- The inner frame-extraction loop of handleConnection, with explicit fuel
(the loop consumes at least two bytes per extracted frame, so fuel equal to
the buffer length plus one always suffices; see processBuffer).  Threads the
in-progress message buffer through processFrame, and returns the frames
handed to processFrame in order, the message buffer, the unconsumed
remainder of the frame buffer, and the event that stopped the connection,
if any.  The branch fs < 0 (after -1 and -2) models the Go slice expression
frameBuffer[:completeFrameSize] panicking on a negative size; when
processFrame returns an error the loop stops (handleConnection returns),
with the frame buffer already advanced past the dispatched frame. -/
def processBufLoop (maxFrameSize : Int) : Nat → List Nat → List Nat → List Frame × List Nat × List Nat × Option ReadEvent
  | 0, msg, buf => ([], msg, buf, none)
  | fuel + 1, msg, buf =>
    if buf = [] then ([], msg, buf, none)
    else
      let fs := frameSize buf maxFrameSize
      if fs = -1 then ([], msg, buf, none)
      else if fs = -2 then ([], msg, buf, some .frameTooLarge)
      else if fs < 0 then ([], msg, buf, some .slicePanic)
      else if buf.length < fs.toNat then ([], msg, buf, none)
      else
        match BytesToFrame (buf.take fs.toNat) with
        | .ok f =>
          let out := processFrame f msg
          if out.errored then ([f], out.msg, buf.drop fs.toNat, some .processError)
          else
            let r := processBufLoop maxFrameSize fuel out.msg (buf.drop fs.toNat)
            (f :: r.1, r.2)
        | .err _ => ([], msg, buf, some .protocolError)
        | .panicked _ => ([], msg, buf, some .decodePanic)

/-- The inner frame-extraction loop of handleConnection on a buffer. -/
def processBuffer (maxFrameSize : Int) (msg buf : List Nat) : List Frame × List Nat × List Nat × Option ReadEvent :=
  processBufLoop maxFrameSize (buf.length + 1) msg buf

/-- One TCP read of handleConnection: append the chunk to the accumulation
buffer and run the frame-extraction loop; once the loop has stopped the
connection, later chunks are not processed. -/
def readStep (maxFrameSize : Int) (st : List Frame × List Nat × List Nat × Option ReadEvent)
    (chunk : List Nat) : List Frame × List Nat × List Nat × Option ReadEvent :=
  match st.2.2.2 with
  | some _ => st
  | none =>
    let r := processBuffer maxFrameSize st.2.1 (st.2.2.1 ++ chunk)
    (st.1 ++ r.1, r.2)

/-- handleConnection reading a sequence of TCP chunks, starting from an empty
accumulation buffer and an empty in-progress message. -/
def feedChunks (maxFrameSize : Int) (chunks : List (List Nat)) :
    List Frame × List Nat × List Nat × Option ReadEvent :=
  chunks.foldl (readStep maxFrameSize) ([], [], [], none)

/-! ## Close state machine (server file) -/

/-- The close-state enum of the server file. -/
inductive CloseState where
  | StateOpen
  | StateClosing
  | StateClosed
deriving DecidableEq, Repr

/-- Position of a state in the order Open < Closing < Closed. -/
def closeStateRank : CloseState → Nat
  | .StateOpen => 0
  | .StateClosing => 1
  | .StateClosed => 2

/-- Connection.Close: refuses when not Open; returns early (state unchanged)
when building the close frame fails; otherwise moves to Closing, and to
Closed when the write fails. -/
def closeUserState (frameOk writeOk : Bool) (s : CloseState) : CloseState :=
  if s ≠ .StateOpen then s
  else if frameOk = false then s
  else if writeOk then .StateClosing
  else .StateClosed

/-- handleCloseFrame: an inbound close frame moves Open and Closing to
Closed and leaves Closed unchanged. -/
def handleCloseFrameState (s : CloseState) : CloseState :=
  match s with
  | .StateOpen => .StateClosed
  | .StateClosing => .StateClosed
  | .StateClosed => .StateClosed

/-- The read-error path of handleConnection: the state is forced to Closed. -/
def readErrorState (_s : CloseState) : CloseState :=
  .StateClosed

/-- The 5-second close timer of Connection.Close: forces Closing to Closed. -/
def closeTimerState (s : CloseState) : CloseState :=
  if s = .StateClosing then .StateClosed else s

/-- The operations that touch the close state (each under closeMx). -/
inductive CloseEvent where
  | userClose (frameOk writeOk : Bool)
  | peerCloseFrame
  | readError
  | closeTimeout
deriving DecidableEq, Repr

/-- The state transition performed by each close-state operation. -/
def closeStep : CloseEvent → CloseState → CloseState
  | .userClose frameOk writeOk, s => closeUserState frameOk writeOk s
  | .peerCloseFrame, s => handleCloseFrameState s
  | .readError, s => readErrorState s
  | .closeTimeout, s => closeTimerState s

/-! ## Invariants -/

/-- The frame invariants of the data model: the opcode is one of the six
legal codes, control frames are final with at most 125 payload bytes, the
declared length matches the payload (and fits comfortably in int64), and an
unmasked frame carries the zero mask key. -/
def FrameInvariants (f : Frame) : Prop :=
  (f.Opcode = 0 ∨ f.Opcode = 1 ∨ f.Opcode = 2 ∨ f.Opcode = 8 ∨ f.Opcode = 9 ∨ f.Opcode = 10) ∧
  ((f.Opcode = 8 ∨ f.Opcode = 9 ∨ f.Opcode = 10) → f.FIN = true ∧ f.PayloadLength ≤ 125) ∧
  f.PayloadLength = (f.Payload.length : Int) ∧
  f.PayloadLength < 2 ^ 63 - 14 ∧
  (f.Mask = false → f.MaskKey = (0, 0, 0, 0))

instance (f : Frame) : Decidable (FrameInvariants f) := by
  unfold FrameInvariants; infer_instance

/-- A frame valid for the incremental-reader theorem: unmasked, satisfying
the frame invariants, with an encoding no larger than maxFrameSize. -/
def wfStream (maxFrameSize : Int) (f : Frame) : Prop :=
  FrameInvariants f ∧ f.Mask = false ∧ ((FrameToBytes f).length : Int) ≤ maxFrameSize

instance (m : Int) (f : Frame) : Decidable (wfStream m f) := by
  unfold wfStream; infer_instance

/-- A frame that goes out unmasked: the Mask flag is off, the encoded byte 1
has its high (mask) bit clear, and the encoding consists of exactly the
2-byte base header, the extended length bytes and the payload — no 4-byte
mask key in between. -/
def unmaskedOnWire (f : Frame) : Prop :=
  f.Mask = false ∧
  ((FrameToBytes f).getD 1 0) &&& 128 = 0 ∧
  (FrameToBytes f).length = 2 + payloadLenBytes f.PayloadLength + f.PayloadLength.toNat

instance (f : Frame) : Decidable (unmaskedOnWire f) := by
  unfold unmaskedOnWire; infer_instance

/-! ## Helper lemmas: bytes and bits -/

theorem byteOfInt_natCast (n : Nat) : byteOfInt (n : Int) = n % 256 := by
  unfold byteOfInt; omega

theorem land_two_pow_eq_zero {x n : Nat} (h : x < 2 ^ n) : x &&& 2 ^ n = 0 := by
  apply Nat.eq_of_testBit_eq
  intro i
  rcases eq_or_ne n i with rfl | hne
  · simp [Nat.testBit_lt_two_pow h, Nat.testBit_two_pow_self]
  · simp [Nat.testBit_two_pow_of_ne hne]

theorem land_128_eq_zero {x : Nat} (h : x < 128) : x &&& 128 = 0 := by
  have : x < 2 ^ 7 := by norm_num at *; omega
  simpa using land_two_pow_eq_zero this

theorem land_127_of_lt {x : Nat} (h : x < 128) : x &&& 127 = x := by
  have : x < 2 ^ 7 := by norm_num at *; omega
  simpa using Nat.and_pow_two_sub_one_of_lt_two_pow this

theorem land_15_of_lt {x : Nat} (h : x < 16) : x &&& 15 = x := by
  have : x < 2 ^ 4 := by norm_num at *; omega
  simpa using Nat.and_pow_two_sub_one_of_lt_two_pow this

/-- The mask/FIN bit of a header byte built as highBit-or-low. -/
theorem highBit_of_or (b : Bool) {x : Nat} (h : x < 128) :
    ((((if b then 128 else 0) ||| x) &&& 128) != 0) = b := by
  cases b <;>
    simp [Nat.and_distrib_right, land_128_eq_zero h, (show 128 &&& 128 = 128 by decide)]

/-- The low 7 bits of a header byte built as highBit-or-low. -/
theorem low7_of_or (b : Bool) {x : Nat} (h : x < 128) :
    ((if b then 128 else 0) ||| x) &&& 127 = x := by
  cases b <;>
    simp [Nat.and_distrib_right, land_127_of_lt h, (show 128 &&& 127 = 0 by decide)]

/-- The low 4 bits of byte 0 built as finBit-or-opcode. -/
theorem low4_of_or (b : Bool) {x : Nat} (h : x < 16) :
    ((if b then 128 else 0) ||| x) &&& 15 = x := by
  cases b <;>
    simp [Nat.and_distrib_right, land_15_of_lt h, (show 128 &&& 15 = 0 by decide)]

theorem copyFill_length (n : Nat) (src : List Nat) : (copyFill n src).length = n := by
  simp [copyFill]
  omega

theorem copyFill_self (src : List Nat) : copyFill src.length src = src := by
  simp [copyFill]

theorem putU64_length (u : Nat) : (putU64 u).length = 8 := by
  simp [putU64]

theorem beU64_putU64 {u : Nat} (h : u < 2 ^ 64) (a b : Nat) (tail : List Nat) :
    beU64 (a :: b :: (putU64 u ++ tail)) 2 = u := by
  simp only [beU64, putU64, List.getD_cons_succ, List.getD_cons_zero,
    List.cons_append, List.getD_cons_zero]
  omega

/-! ## Helper lemmas: shape of the encoding -/

/-- Wire shape of an unmasked frame in the 1-byte length class. -/
theorem enc_small {f : Frame} (hm : f.Mask = false)
    (hpl : f.PayloadLength = (f.Payload.length : Int)) (h : f.Payload.length < 126) :
    FrameToBytes f =
      ((if f.FIN then 128 else 0) ||| f.Opcode) :: f.Payload.length :: f.Payload := by
  simp only [FrameToBytes, hm, hpl]
  rw [if_pos (by exact_mod_cast h)]
  simp [byteOfInt_natCast, Nat.mod_eq_of_lt (show f.Payload.length < 256 by omega),
    copyFill_self]

/-- Wire shape of an unmasked frame in the 2-byte length class. -/
theorem enc_mid {f : Frame} (hm : f.Mask = false)
    (hpl : f.PayloadLength = (f.Payload.length : Int))
    (hlo : 126 ≤ f.Payload.length) (hhi : f.Payload.length ≤ 65535) :
    FrameToBytes f =
      ((if f.FIN then 128 else 0) ||| f.Opcode) :: 126 ::
        f.Payload.length / 256 :: f.Payload.length % 256 :: f.Payload := by
  simp only [FrameToBytes, hm, hpl]
  rw [if_neg (by exact_mod_cast (by omega : ¬ f.Payload.length < 126)),
    if_pos (by exact_mod_cast hhi)]
  have h1 : byteOfInt ((f.Payload.length : Int) / 256) = f.Payload.length / 256 := by
    unfold byteOfInt; omega
  have h2 : byteOfInt (f.Payload.length : Int) = f.Payload.length % 256 := by
    unfold byteOfInt; omega
  simp [h1, h2, copyFill_self]

/-- Wire shape of an unmasked frame in the 8-byte length class. -/
theorem enc_big {f : Frame} (hm : f.Mask = false)
    (hpl : f.PayloadLength = (f.Payload.length : Int))
    (hlo : 65535 < f.Payload.length) (hbig : (f.Payload.length : Int) < 2 ^ 63) :
    FrameToBytes f =
      ((if f.FIN then 128 else 0) ||| f.Opcode) :: 127 ::
        (putU64 f.Payload.length ++ f.Payload) := by
  simp only [FrameToBytes, hm, hpl]
  rw [if_neg (by exact_mod_cast (by omega : ¬ f.Payload.length < 126)),
    if_neg (by exact_mod_cast (by omega : ¬ f.Payload.length ≤ 65535))]
  have hmod : ((f.Payload.length : Int) % 18446744073709551616).toNat = f.Payload.length := by
    omega
  simp [hmod, copyFill_self]

/-! ## Helper lemmas: decoding each wire shape -/

theorem decode_small (fin : Bool) (op n : Nat) (payload rest : List Nat)
    (hop : op < 16) (hn : payload.length = n) (h126 : n < 126) :
    BytesToFrame ((((if fin then 128 else 0) ||| op) :: n :: payload) ++ rest) =
      .ok { FIN := fin, Opcode := op, Mask := false, MaskKey := (0, 0, 0, 0),
            Payload := payload, PayloadLength := (n : Int) } := by
  have hop128 : op < 128 := by omega
  have hn128 : n < 128 := by omega
  simp only [List.cons_append, BytesToFrame, List.getD_cons_zero, List.getD_cons_succ,
    List.length_cons, List.length_append]
  rw [if_neg (by omega)]
  simp only [highBit_of_or fin hop128, low4_of_or fin hop,
    land_128_eq_zero hn128, land_127_of_lt hn128]
  rw [if_neg (by omega : ¬ (n = 126 ∧ payload.length + rest.length + 1 + 1 < 4))]
  rw [if_neg (by omega : ¬ (n = 127 ∧ payload.length + rest.length + 1 + 1 < 10))]
  rw [if_pos h126]
  simp only [bne_self_eq_false, Bool.false_eq_true, false_and, if_neg, ite_false,
    if_pos h126]
  rw [if_neg (by push_cast; omega :
    ¬ ((payload.length + rest.length + 1 + 1 : Nat) : Int) < (2 : Nat) + (n : Int))]
  rw [if_neg (by omega : ¬ ((n : Int) < 0))]
  simp [Int.toNat_natCast, List.take_left' hn]

theorem decode_mid (fin : Bool) (op n : Nat) (payload rest : List Nat)
    (hop : op < 16) (hn : payload.length = n) (hlo : 126 ≤ n) (hhi : n ≤ 65535) :
    BytesToFrame ((((if fin then 128 else 0) ||| op) :: 126 ::
        n / 256 :: n % 256 :: payload) ++ rest) =
      .ok { FIN := fin, Opcode := op, Mask := false, MaskKey := (0, 0, 0, 0),
            Payload := payload, PayloadLength := (n : Int) } := by
  have hop128 : op < 128 := by omega
  simp only [List.cons_append, BytesToFrame, List.getD_cons_zero, List.getD_cons_succ,
    List.length_cons, List.length_append]
  rw [if_neg (by omega)]
  simp only [highBit_of_or fin hop128, low4_of_or fin hop,
    (show (126 : Nat) &&& 128 = 0 by decide), (show (126 : Nat) &&& 127 = 126 by decide)]
  have hbe : beU16 (((if fin = true then 128 else 0) ||| op) :: 126 ::
      n / 256 :: n % 256 :: (payload ++ rest)) 2 = n := by
    simp only [beU16, List.getD_cons_succ, List.getD_cons_zero]
    omega
  simp only [hbe]
  norm_num
  rw [if_neg (by omega : ¬ payload.length + rest.length + 1 + 1 + 1 + 1 < 4)]
  rw [if_neg (by omega :
    ¬ ((payload.length : Int) + (rest.length : Int) + 1 + 1 + 1 + 1 < 4 + (n : Int)))]
  rw [if_neg (by omega : ¬ ((n : Int) < 0))]
  simp [List.take_left' hn]

theorem decode_big (fin : Bool) (op n : Nat) (payload rest : List Nat)
    (hop : op < 16) (hn : payload.length = n) (hlo : 65535 < n)
    (hbig : (n : Int) < 2 ^ 63) :
    BytesToFrame ((((if fin then 128 else 0) ||| op) :: 127 ::
        (putU64 n ++ payload)) ++ rest) =
      .ok { FIN := fin, Opcode := op, Mask := false, MaskKey := (0, 0, 0, 0),
            Payload := payload, PayloadLength := (n : Int) } := by
  have hop128 : op < 128 := by omega
  have hn64 : n < 2 ^ 64 := by omega
  have hshape : (((if fin then 128 else 0) ||| op) :: 127 :: (putU64 n ++ payload)) ++ rest =
      ((if fin then 128 else 0) ||| op) :: 127 :: (putU64 n ++ (payload ++ rest)) := by
    simp [List.append_assoc]
  rw [hshape]
  have hlen : (((if fin then 128 else 0) ||| op) :: 127 :: (putU64 n ++ (payload ++ rest))).length
      = n + rest.length + 10 := by
    simp [putU64_length, List.length_append, hn]
    omega
  simp only [BytesToFrame, List.getD_cons_zero, List.getD_cons_succ, hlen]
  rw [if_neg (by omega)]
  simp only [highBit_of_or fin hop128, low4_of_or fin hop,
    (show (127 : Nat) &&& 128 = 0 by decide), (show (127 : Nat) &&& 127 = 127 by decide)]
  have hbe : beU64 (((if fin = true then 128 else 0) ||| op) :: 127 ::
      (putU64 n ++ (payload ++ rest))) 2 = n := beU64_putU64 hn64 _ _ _
  have hi64 : i64ofU64 n = (n : Int) := by
    unfold i64ofU64
    rw [if_pos (by omega)]
  simp only [hbe, hi64]
  norm_num
  rw [if_neg (by omega : ¬ ((n : Int) + (rest.length : Int) + 10 < 10 + (n : Int)))]
  rw [if_neg (by omega : ¬ ((n : Int) < 0))]
  have hdrop : List.drop 8 (putU64 n ++ (payload ++ rest)) = payload ++ rest := by
    simp [putU64]
  simp [hdrop, List.take_left' hn]

/-- Round trip of the codec on unmasked frames, with an arbitrary unconsumed
tail: decoding reads exactly the encoded prefix. -/
theorem BytesToFrame_FrameToBytes (f : Frame) (rest : List Nat)
    (hop : f.Opcode < 16) (hpl : f.PayloadLength = (f.Payload.length : Int))
    (hbig : f.PayloadLength < 2 ^ 63) (hm : f.Mask = false)
    (hk : f.MaskKey = (0, 0, 0, 0)) :
    BytesToFrame (FrameToBytes f ++ rest) = .ok f := by
  obtain ⟨fin, op, mask, key, payload, pl⟩ := f
  simp only at hop hpl hbig hm hk
  subst hm hk hpl
  rcases Nat.lt_or_ge payload.length 126 with h | h
  · rw [enc_small rfl rfl h]
    exact decode_small fin op payload.length payload rest hop rfl h
  · rcases Nat.lt_or_ge payload.length 65536 with h2 | h2
    · have hh := enc_mid
        (f := { FIN := fin, Opcode := op, Mask := false, MaskKey := (0, 0, 0, 0),
                Payload := payload, PayloadLength := (payload.length : Int) })
        rfl rfl (by exact h) (by exact (show payload.length ≤ 65535 by omega))
      rw [hh]
      exact decode_mid fin op payload.length payload rest hop rfl h (by omega)
    · have hh := enc_big
        (f := { FIN := fin, Opcode := op, Mask := false, MaskKey := (0, 0, 0, 0),
                Payload := payload, PayloadLength := (payload.length : Int) })
        rfl rfl (by exact (show (65535 : Nat) < payload.length by omega))
        (by exact (show ((payload.length : Int) < 2 ^ 63) by exact_mod_cast hbig))
      rw [hh]
      exact decode_big fin op payload.length payload rest hop rfl (by omega)
        (by exact_mod_cast hbig)

/-! ## Helper lemmas: frameSize on encodings and their prefixes -/

theorem wrap64_eq_self {x : Int} (hlo : -(2 ^ 63) ≤ x) (hhi : x < 2 ^ 63) :
    wrap64 x = x := by
  unfold wrap64
  omega

theorem prefixGetD {P L : List Nat} (h : P <+: L) {i : Nat} (hi : i < P.length) (d : Nat) :
    P.getD i d = L.getD i d := by
  obtain ⟨t, rfl⟩ := h
  rw [List.getD_append _ _ _ _ hi]

/-- Length of the encoding of an unmasked frame with a consistent payload
length. -/
theorem FrameToBytes_length {f : Frame} (hm : f.Mask = false)
    (hpl : f.PayloadLength = (f.Payload.length : Int))
    (hbig : f.PayloadLength < 2 ^ 63) :
    (FrameToBytes f).length = 2 + payloadLenBytes f.PayloadLength + f.Payload.length := by
  have hplb : payloadLenBytes f.PayloadLength =
      if f.Payload.length < 126 then 0 else if f.Payload.length ≤ 65535 then 2 else 8 := by
    unfold payloadLenBytes
    rw [hpl]
    split_ifs <;> first | rfl | (exfalso; omega)
  rw [hplb]
  rcases Nat.lt_or_ge f.Payload.length 126 with h | h
  · rw [enc_small hm hpl h]
    simp [h]
    omega
  · rcases Nat.lt_or_ge f.Payload.length 65536 with h2 | h2
    · rw [enc_mid hm hpl h (by omega)]
      simp [List.length_cons]
      split_ifs <;> omega
    · rw [enc_big hm hpl (by omega) (by rw [hpl] at hbig; exact_mod_cast hbig)]
      simp [putU64_length]
      split_ifs <;> omega

theorem frameSize_short {data : List Nat} (max : Int) (h : data.length < 2) :
    frameSize data max = -1 := by
  unfold frameSize
  rw [if_pos h]

theorem frameSize_small_header {data : List Nat} {n : Nat} (max : Int)
    (hlen : 2 ≤ data.length) (hb1 : data.getD 1 0 = n) (hn : n < 126)
    (hmax : (2 + (n : Int)) ≤ max) :
    frameSize data max = 2 + (n : Int) := by
  unfold frameSize
  rw [if_neg (by omega)]
  simp only [hb1, land_127_of_lt (show n < 128 by omega),
    land_128_eq_zero (show n < 128 by omega)]
  rw [if_neg (by omega : ¬ (n = 126 ∧ data.length < 4))]
  rw [if_neg (by omega : ¬ (n = 127 ∧ data.length < 10))]
  simp only [bne_self_eq_false, Bool.false_eq_true, if_false, ite_false,
    (show ¬ (n = 126) by omega), (show ¬ (n = 127) by omega), if_neg]
  norm_num
  rw [wrap64_eq_self (by omega) (by omega)]
  rw [if_neg (by omega : ¬ (2 + (n : Int) > max))]

theorem frameSize_mid_incomplete {data : List Nat} (max : Int)
    (h2 : 2 ≤ data.length) (h4 : data.length < 4) (hb1 : data.getD 1 0 = 126) :
    frameSize data max = -1 := by
  unfold frameSize
  rw [if_neg (by omega)]
  simp only [hb1]
  rw [(show (126 : Nat) &&& 127 = 126 by decide), (show (126 : Nat) &&& 128 = 0 by decide)]
  rw [if_pos (⟨rfl, h4⟩ : (126 : Nat) = 126 ∧ data.length < 4)]

theorem frameSize_mid_header {data : List Nat} {n : Nat} (max : Int)
    (hlen : 4 ≤ data.length) (hb1 : data.getD 1 0 = 126)
    (hb2 : data.getD 2 0 = n / 256) (hb3 : data.getD 3 0 = n % 256)
    (hn : n ≤ 65535) (hmax : (4 + (n : Int)) ≤ max) :
    frameSize data max = 4 + (n : Int) := by
  unfold frameSize
  rw [if_neg (by omega)]
  simp only [hb1]
  have hbe : beU16 data 2 = n := by
    unfold beU16
    rw [hb2, hb3]
    omega
  simp only [hbe]
  rw [(show (126 : Nat) &&& 127 = 126 by decide), (show (126 : Nat) &&& 128 = 0 by decide)]
  rw [if_neg (by omega : ¬ ((126 : Nat) = 126 ∧ data.length < 4))]
  rw [if_neg (by omega : ¬ ((126 : Nat) = 127 ∧ data.length < 10))]
  norm_num
  rw [wrap64_eq_self (by omega) (by omega)]
  rw [if_neg (by omega : ¬ (max < 4 + (n : Int)))]

theorem frameSize_big_incomplete {data : List Nat} (max : Int)
    (h2 : 2 ≤ data.length) (h10 : data.length < 10) (hb1 : data.getD 1 0 = 127) :
    frameSize data max = -1 := by
  unfold frameSize
  rw [if_neg (by omega)]
  simp only [hb1]
  rw [(show (127 : Nat) &&& 127 = 127 by decide), (show (127 : Nat) &&& 128 = 0 by decide)]
  rw [if_neg (by omega : ¬ ((127 : Nat) = 126 ∧ data.length < 4))]
  rw [if_pos (⟨rfl, h10⟩ : (127 : Nat) = 127 ∧ data.length < 10)]

theorem frameSize_big_header {data : List Nat} {n : Nat} (max : Int)
    (hlen : 10 ≤ data.length) (hb1 : data.getD 1 0 = 127)
    (hbe : beU64 data 2 = n) (hn : (n : Int) < 2 ^ 63 - 14)
    (hmax : (10 + (n : Int)) ≤ max) :
    frameSize data max = 10 + (n : Int) := by
  unfold frameSize
  rw [if_neg (by omega)]
  simp only [hb1, hbe]
  have hi64 : i64ofU64 n = (n : Int) := by
    unfold i64ofU64
    rw [if_pos (by omega)]
  rw [(show (127 : Nat) &&& 127 = 127 by decide), (show (127 : Nat) &&& 128 = 0 by decide)]
  rw [if_neg (by omega : ¬ ((127 : Nat) = 126 ∧ data.length < 4))]
  rw [if_neg (by omega : ¬ ((127 : Nat) = 127 ∧ data.length < 10))]
  simp only [hbe, hi64]
  norm_num
  rw [wrap64_eq_self (by omega) (by omega)]
  rw [if_neg (by omega : ¬ (max < 10 + (n : Int)))]

/-- frameSize on the encoding of a well-formed unmasked frame, followed by
any tail: it returns exactly the length of the encoding. -/
theorem frameSize_encode (f : Frame) (rest : List Nat) (max : Int)
    (hm : f.Mask = false) (hpl : f.PayloadLength = (f.Payload.length : Int))
    (hbig : f.PayloadLength < 2 ^ 63 - 14)
    (hle : ((FrameToBytes f).length : Int) ≤ max) :
    frameSize (FrameToBytes f ++ rest) max = ((FrameToBytes f).length : Int) := by
  obtain ⟨fin, op, mask, key, payload, pl⟩ := f
  simp only at hm hpl hbig hle ⊢
  subst hm hpl
  set n := payload.length with hn
  rcases Nat.lt_or_ge n 126 with h | h
  · rw [enc_small rfl rfl h] at hle ⊢
    simp only [List.cons_append]
    rw [frameSize_small_header max (by simp) (by simp) h
      (by simp at hle; push_cast at hle ⊢; omega)]
    simp
    omega
  · rcases Nat.lt_or_ge n 65536 with h2 | h2
    · have hh := enc_mid
        (f := { FIN := fin, Opcode := op, Mask := false, MaskKey := key,
                Payload := payload, PayloadLength := (n : Int) })
        rfl rfl (by exact h) (by exact (show n ≤ 65535 by omega))
      rw [hh] at hle ⊢
      dsimp only at hle ⊢
      simp only [List.cons_append]
      rw [frameSize_mid_header (n := n) max (by simp) (by simp) (by simp) (by simp)
        (by omega) (by simp at hle; push_cast at hle ⊢; omega)]
      simp
      omega
    · have hh := enc_big
        (f := { FIN := fin, Opcode := op, Mask := false, MaskKey := key,
                Payload := payload, PayloadLength := (n : Int) })
        rfl rfl (by exact (show 65535 < n by omega))
        (by exact (show ((n : Int) < 2 ^ 63) by push_cast at hbig ⊢; omega))
      rw [hh] at hle ⊢
      dsimp only at hle ⊢
      have hshape : (((if fin then 128 else 0) ||| op) :: 127 :: (putU64 n ++ payload)) ++ rest =
          ((if fin then 128 else 0) ||| op) :: 127 :: (putU64 n ++ (payload ++ rest)) := by
        simp [List.append_assoc]
      rw [hshape]
      have hbe : beU64 (((if fin then 128 else 0) ||| op) :: 127 ::
          (putU64 n ++ (payload ++ rest))) 2 = n :=
        beU64_putU64 (by omega) _ _ _
      rw [frameSize_big_header (n := n) max (by simp [putU64_length] <;> omega) (by simp) hbe
        (by omega)
        (by simp [putU64_length] at hle; push_cast at hle ⊢; omega)]
      simp [putU64_length]
      push_cast
      omega

/-! ## Helper lemmas: the frame-extraction loop -/

theorem bytesToFrame_ok_length {data : List Nat} {f : Frame}
    (h : BytesToFrame data = .ok f) : 2 ≤ data.length := by
  by_contra h2
  unfold BytesToFrame at h
  rw [if_pos (by omega)] at h
  exact DResult.noConfusion h

theorem two_le_FrameToBytes_length (f : Frame) : 2 ≤ (FrameToBytes f).length := by
  unfold FrameToBytes
  split_ifs <;> simp

/-- The result of the extraction loop does not depend on the fuel, as soon as
the fuel exceeds the buffer length. -/
theorem processBufLoop_stable (max : Int) :
    ∀ fuel (msg buf : List Nat), buf.length < fuel →
      processBufLoop max fuel msg buf = processBufLoop max (buf.length + 1) msg buf := by
  intro fuel
  induction fuel using Nat.strong_induction_on with
  | _ fuel ih =>
    intro msg buf hlt
    match fuel, hlt with
    | fuel + 1, hlt =>
      simp only [processBufLoop]
      by_cases h0 : buf = []
      · simp [h0]
      · simp only [if_neg h0]
        by_cases h1 : frameSize buf max = -1
        · simp [h1]
        · by_cases h2 : frameSize buf max = -2
          · simp [h1, h2]
          · by_cases h3 : frameSize buf max < 0
            · simp [h1, h2, h3]
            · by_cases h4 : buf.length < (frameSize buf max).toNat
              · simp [h1, h2, h3, h4]
              · simp only [if_neg h1, if_neg h2, if_neg h3, if_neg h4]
                rcases hB : BytesToFrame (buf.take (frameSize buf max).toNat) with f | e | e
                · have hlen2 : 2 ≤ (buf.take (frameSize buf max).toNat).length :=
                    bytesToFrame_ok_length hB
                  rw [List.length_take] at hlen2
                  have hd1 : (buf.drop (frameSize buf max).toNat).length < fuel := by
                    rw [List.length_drop]
                    omega
                  have hd2 : (buf.drop (frameSize buf max).toNat).length < buf.length := by
                    rw [List.length_drop]
                    omega
                  simp only []
                  by_cases herr : (processFrame f msg).errored = true
                  · rw [if_pos herr, if_pos herr]
                  · rw [if_neg herr, if_neg herr]
                    rw [ih fuel (by omega) _ _ hd1, ih buf.length (by omega) _ _ hd2]
                · rfl
                · rfl

/-- One-step characterisation: a buffer on which the loop makes no progress. -/
theorem processBuffer_stop {max : Int} {P : List Nat} (msg : List Nat) (hne : P ≠ [])
    (h : frameSize P max = -1 ∨
      (0 ≤ frameSize P max ∧ (P.length : Int) < frameSize P max)) :
    processBuffer max msg P = ([], msg, P, none) := by
  unfold processBuffer
  simp only [processBufLoop]
  rw [if_neg hne]
  rcases h with h | ⟨h0, hlt⟩
  · simp [h]
  · rw [if_neg (by omega), if_neg (by omega), if_neg (by omega), if_pos (by omega)]

/-- One-step characterisation: a buffer whose first bytes are the encoding of
a well-formed unmasked frame on which processFrame does not error yields
that frame and continues on the rest with the updated message buffer. -/
theorem processBuffer_cons (f : Frame) (msg P2 : List Nat) (max : Int)
    (hm : f.Mask = false) (hpl : f.PayloadLength = (f.Payload.length : Int))
    (hbig : f.PayloadLength < 2 ^ 63 - 14) (hop : f.Opcode < 16)
    (hk : f.MaskKey = (0, 0, 0, 0))
    (hle : ((FrameToBytes f).length : Int) ≤ max)
    (herr : ¬ ((processFrame f msg).errored = true)) :
    processBuffer max msg (FrameToBytes f ++ P2) =
      (f :: (processBuffer max (processFrame f msg).msg P2).1,
        (processBuffer max (processFrame f msg).msg P2).2) := by
  have h2 := two_le_FrameToBytes_length f
  have hfs := frameSize_encode f P2 max hm hpl hbig hle
  have hne : FrameToBytes f ++ P2 ≠ [] := by
    intro h
    have h3 := congrArg List.length h
    rw [List.length_append, List.length_nil] at h3
    omega
  rcases hP2 : processBuffer max (processFrame f msg).msg P2 with ⟨ds, m2, R, ev⟩
  unfold processBuffer
  simp only [processBufLoop]
  rw [if_neg hne, hfs]
  rw [if_neg (show ¬ ((((FrameToBytes f).length : Nat) : Int) = -1) from by omega)]
  rw [if_neg (show ¬ ((((FrameToBytes f).length : Nat) : Int) = -2) from by omega)]
  rw [if_neg (show ¬ ((((FrameToBytes f).length : Nat) : Int) < 0) from by omega)]
  rw [if_neg (show ¬ ((FrameToBytes f ++ P2).length <
      ((((FrameToBytes f).length : Nat) : Int)).toNat) from by
    rw [List.length_append, Int.toNat_natCast]
    omega)]
  have htake : (FrameToBytes f ++ P2).take ((((FrameToBytes f).length : Nat) : Int)).toNat =
      FrameToBytes f := by
    rw [Int.toNat_natCast]
    exact List.take_left _ _
  have hdec : BytesToFrame (FrameToBytes f) = .ok f := by
    have := BytesToFrame_FrameToBytes f [] hop hpl (by omega) hm hk
    simpa using this
  rw [htake, hdec]
  have hdrop : (FrameToBytes f ++ P2).drop ((((FrameToBytes f).length : Nat) : Int)).toNat =
      P2 := by
    rw [Int.toNat_natCast]
    exact List.drop_left _ _
  dsimp only
  rw [if_neg herr]
  rw [hdrop]
  rw [processBufLoop_stable max _ _ P2 (by rw [List.length_append]; omega)]
  have hP2a : processBufLoop max (P2.length + 1) (processFrame f msg).msg P2 =
      (ds, m2, R, ev) := hP2
  rw [hP2a]

theorem prefixBeU64 {P L : List Nat} (h : P <+: L) (hlen : 10 ≤ P.length) :
    beU64 P 2 = beU64 L 2 := by
  unfold beU64
  rw [prefixGetD h (by omega) 0, prefixGetD h (by omega) 0,
    prefixGetD h (by omega) 0, prefixGetD h (by omega) 0,
    prefixGetD h (by omega) 0, prefixGetD h (by omega) 0,
    prefixGetD h (by omega) 0, prefixGetD h (by omega) 0]

/-- A proper prefix of the encoding of a well-formed unmasked frame makes no
progress in the extraction loop: the bytes are retained for the next read. -/
theorem processBuffer_of_prefix (f : Frame) (msg P : List Nat) (max : Int)
    (hm : f.Mask = false) (hpl : f.PayloadLength = (f.Payload.length : Int))
    (hbig : f.PayloadLength < 2 ^ 63 - 14)
    (hle : ((FrameToBytes f).length : Int) ≤ max)
    (hP : P <+: FrameToBytes f) (hlt : P.length < (FrameToBytes f).length) :
    processBuffer max msg P = ([], msg, P, none) := by
  by_cases h0 : P = []
  · subst h0
    rfl
  by_cases hP2 : P.length < 2
  · exact processBuffer_stop msg h0 (Or.inl (frameSize_short max hP2))
  obtain ⟨fin, op, mask, key, payload, pl⟩ := f
  simp only at hm hpl hbig hle ⊢
  subst hm hpl
  set n := payload.length with hn
  rcases Nat.lt_or_ge n 126 with h | h
  · rw [enc_small rfl rfl h] at hP hlt hle
    have hb1 : P.getD 1 0 = n := by
      rw [prefixGetD hP (by omega) 0]
      rfl
    refine processBuffer_stop msg h0 (Or.inr ?_)
    rw [frameSize_small_header max (by omega) hb1 h
      (by simp at hle; push_cast at hle ⊢; omega)]
    constructor
    · omega
    · simp at hlt
      push_cast
      omega
  · rcases Nat.lt_or_ge n 65536 with h2 | h2
    · have hh := enc_mid
        (f := { FIN := fin, Opcode := op, Mask := false, MaskKey := key,
                Payload := payload, PayloadLength := (n : Int) })
        rfl rfl (by exact h) (by exact (show n ≤ 65535 by omega))
      rw [hh] at hP hlt hle
      dsimp only at hP hlt hle
      have hb1 : P.getD 1 0 = 126 := by
        rw [prefixGetD hP (by omega) 0]
        rfl
      by_cases h4 : P.length < 4
      · exact processBuffer_stop msg h0 (Or.inl (frameSize_mid_incomplete max (by omega) h4 hb1))
      · have hb2 : P.getD 2 0 = n / 256 := by
          rw [prefixGetD hP (by omega) 0]
          rfl
        have hb3 : P.getD 3 0 = n % 256 := by
          rw [prefixGetD hP (by omega) 0]
          rfl
        refine processBuffer_stop msg h0 (Or.inr ?_)
        rw [frameSize_mid_header (n := n) max (by omega) hb1 hb2 hb3 (by omega)
          (by simp at hle; push_cast at hle ⊢; omega)]
        constructor
        · omega
        · simp at hlt
          push_cast
          omega
    · have hh := enc_big
        (f := { FIN := fin, Opcode := op, Mask := false, MaskKey := key,
                Payload := payload, PayloadLength := (n : Int) })
        rfl rfl (by exact (show 65535 < n by omega)) (by exact (show ((n : Int) < 2 ^ 63) by omega))
      rw [hh] at hP hlt hle
      dsimp only at hP hlt hle
      have hb1 : P.getD 1 0 = 127 := by
        rw [prefixGetD hP (by omega) 0]
        rfl
      by_cases h10 : P.length < 10
      · exact processBuffer_stop msg h0 (Or.inl (frameSize_big_incomplete max (by omega) h10 hb1))
      · have hbe : beU64 P 2 = n := by
          rw [prefixBeU64 hP (by omega)]
          exact beU64_putU64 (by omega) _ _ _
        refine processBuffer_stop msg h0 (Or.inr ?_)
        rw [frameSize_big_header (n := n) max (by omega) hb1 hbe (by omega)
          (by simp [putU64_length] at hle; push_cast at hle ⊢; omega)]
        constructor
        · omega
        · simp [putU64_length] at hlt
          push_cast
          omega

/-- Fields packaged by wfStream. -/
theorem wfStream_fields {max : Int} {f : Frame} (h : wfStream max f) :
    f.Mask = false ∧ f.PayloadLength = (f.Payload.length : Int) ∧
    f.PayloadLength < 2 ^ 63 - 14 ∧ f.Opcode < 16 ∧ f.MaskKey = (0, 0, 0, 0) ∧
    ((FrameToBytes f).length : Int) ≤ max := by
  obtain ⟨⟨hopset, _, hpl, hbig, hkey⟩, hm, hle⟩ := h
  refine ⟨hm, hpl, hbig, ?_, hkey hm, hle⟩
  rcases hopset with h | h | h | h | h | h <;> omega

/-- Unfolding equation for msgAfterList on a cons. -/
theorem msgAfterList_cons (m : List Nat) (f : Frame) (fs : List Frame) :
    msgAfterList m (f :: fs) = msgAfterList (processFrame f m).msg fs := rfl

/-- Unfolding equation for assemblyOk on a cons. -/
theorem assemblyOk_cons (m : List Nat) (f : Frame) (fs : List Frame) :
    assemblyOk m (f :: fs) =
      (!(processFrame f m).errored && assemblyOk (processFrame f m).msg fs) := rfl

/-- msgAfterList distributes over append. -/
theorem msgAfterList_append (m : List Nat) (l1 l2 : List Frame) :
    msgAfterList m (l1 ++ l2) = msgAfterList (msgAfterList m l1) l2 := by
  induction l1 generalizing m with
  | nil => rfl
  | cons f l1 ih =>
    rw [List.cons_append, msgAfterList_cons, msgAfterList_cons, ih]

/-- assemblyOk distributes over append. -/
theorem assemblyOk_append (m : List Nat) (l1 l2 : List Frame) :
    assemblyOk m (l1 ++ l2) =
      (assemblyOk m l1 && assemblyOk (msgAfterList m l1) l2) := by
  induction l1 generalizing m with
  | nil => simp [assemblyOk, msgAfterList]
  | cons f l1 ih =>
    rw [List.cons_append, assemblyOk_cons, assemblyOk_cons, msgAfterList_cons, ih,
      Bool.and_assoc]

/-- The extraction loop on any prefix of a stream of well-formed encoded
frames on which the message assembler never errors: it extracts exactly the
complete frames of the prefix, threads the message buffer through
processFrame, holds on to the bytes of the incomplete last frame, and
raises no event. -/
theorem processBuffer_stream (max : Int) :
    ∀ (gs : List Frame) (msg P : List Nat),
      (∀ g ∈ gs, wfStream max g) → assemblyOk msg gs = true →
      P <+: (gs.map FrameToBytes).flatten →
      ∃ k, k ≤ gs.length ∧
        ((gs.take k).map FrameToBytes).flatten ++
            P.drop ((gs.take k).map FrameToBytes).flatten.length = P ∧
        processBuffer max msg P =
          (gs.take k, msgAfterList msg (gs.take k),
            P.drop ((gs.take k).map FrameToBytes).flatten.length, none) ∧
        (∀ g, (gs.drop k).head? = some g →
          (P.drop ((gs.take k).map FrameToBytes).flatten.length).length <
            (FrameToBytes g).length) := by
  intro gs
  induction gs with
  | nil =>
    intro msg P _ _ hP
    rw [List.map_nil, List.flatten_nil, List.prefix_nil] at hP
    subst hP
    exact ⟨0, by simp, by simp, rfl, by simp⟩
  | cons g gs2 ih =>
    intro msg P hwf hasm hP
    obtain ⟨hm, hpl, hbig, hop, hk, hle⟩ := wfStream_fields (hwf g (by simp))
    simp only [assemblyOk, Bool.and_eq_true, Bool.not_eq_true'] at hasm
    obtain ⟨herr, hasm2⟩ := hasm
    rw [List.map_cons, List.flatten_cons] at hP
    by_cases hc : P.length < (FrameToBytes g).length
    · have hPe : P <+: FrameToBytes g :=
        List.prefix_of_prefix_length_le hP (List.prefix_append _ _) (by omega)
      refine ⟨0, by simp, by simp, ?_, ?_⟩
      · simpa [msgAfterList] using
          processBuffer_of_prefix g msg P max hm hpl hbig hle hPe hc
      · intro g2 hg2
        simp at hg2
        subst hg2
        simpa using hc
    · push_neg at hc
      have heP : FrameToBytes g <+: P :=
        List.prefix_of_prefix_length_le (List.prefix_append _ _) hP hc
      obtain ⟨P2, rfl⟩ := heP
      have hP2 : P2 <+: (gs2.map FrameToBytes).flatten :=
        (List.prefix_append_right_inj _).mp hP
      obtain ⟨k2, hk2, hsplit, hpb, hnext⟩ :=
        ih (processFrame g msg).msg P2 (fun g2 hg2 => hwf g2 (by simp [hg2])) hasm2 hP2
      refine ⟨k2 + 1, by simp; omega, ?_, ?_, ?_⟩
      · simp only [List.take_succ_cons, List.map_cons, List.flatten_cons,
          List.length_append]
        rw [← List.drop_drop, List.drop_left]
        rw [List.append_assoc, hsplit]
      · rw [processBuffer_cons g msg P2 max hm hpl hbig hop hk hle
          (by rw [herr]; exact Bool.false_ne_true), hpb]
        simp only [List.take_succ_cons, List.map_cons, List.flatten_cons,
          List.length_append, msgAfterList]
        rw [← List.drop_drop, List.drop_left]
      · intro g2 hg2
        simp only [List.drop_succ_cons] at hg2
        have := hnext g2 hg2
        simp only [List.take_succ_cons, List.map_cons, List.flatten_cons,
          List.length_append]
        rw [← List.drop_drop, List.drop_left]
        simpa using this

/-- Feeding chunks: as long as the bytes still to come complete the remaining
frames exactly and the assembler never errors, the read loop dispatches
exactly those frames, in order. -/
theorem feedChunks_go (max : Int) :
    ∀ (chunks : List (List Nat)) (gs : List Frame) (A : List Frame) (m R : List Nat),
      (∀ g ∈ gs, wfStream max g) → assemblyOk m gs = true →
      R ++ chunks.flatten = (gs.map FrameToBytes).flatten →
      (∀ g, gs.head? = some g → R.length < (FrameToBytes g).length) →
      chunks.foldl (readStep max) (A, m, R, none) =
        (A ++ gs, msgAfterList m gs, [], none) := by
  intro chunks
  induction chunks with
  | nil =>
    intro gs A m R hwf hasm hjoin hR
    cases gs with
    | nil =>
      simp only [List.map_nil, List.flatten_nil, List.flatten_nil,
        List.append_nil] at hjoin
      subst hjoin
      simp [msgAfterList]
    | cons g gs2 =>
      exfalso
      have hlen := congrArg List.length hjoin
      simp only [List.flatten_nil, List.append_nil, List.map_cons,
        List.flatten_cons, List.length_append] at hlen
      have := hR g rfl
      omega
  | cons c cs ih =>
    intro gs A m R hwf hasm hjoin hR
    simp only [List.foldl_cons]
    have hstep : readStep max (A, m, R, none) c =
        (A ++ (processBuffer max m (R ++ c)).1,
          (processBuffer max m (R ++ c)).2) := rfl
    rw [hstep]
    have hjoin2 : (R ++ c) ++ cs.flatten = (gs.map FrameToBytes).flatten := by
      rw [List.append_assoc]
      simpa using hjoin
    have hpre : (R ++ c) <+: (gs.map FrameToBytes).flatten := ⟨cs.flatten, hjoin2⟩
    obtain ⟨k, hkle, hsplit, hpb, hnext⟩ :=
      processBuffer_stream max gs m (R ++ c) hwf hasm hpre
    rw [hpb]
    have hwf2 : ∀ g ∈ gs.drop k, wfStream max g :=
      fun g hg => hwf g (List.mem_of_mem_drop hg)
    have hasm2 : assemblyOk (msgAfterList m (gs.take k)) (gs.drop k) = true := by
      have h := assemblyOk_append m (gs.take k) (gs.drop k)
      rw [List.take_append_drop, hasm] at h
      have h2 := h.symm
      rw [Bool.and_eq_true] at h2
      exact h2.2
    have hjoin3 : ((R ++ c).drop ((gs.take k).map FrameToBytes).flatten.length) ++
        cs.flatten = ((gs.drop k).map FrameToBytes).flatten := by
      have hgs : (gs.map FrameToBytes).flatten =
          ((gs.take k).map FrameToBytes).flatten ++
            ((gs.drop k).map FrameToBytes).flatten := by
        rw [← List.flatten_append, ← List.map_append, List.take_append_drop]
      apply @List.append_cancel_left _ (((gs.take k).map FrameToBytes).flatten) _ _
      rw [← List.append_assoc, hsplit, hjoin2, hgs]
    have := ih (gs.drop k) (A ++ gs.take k) (msgAfterList m (gs.take k))
      ((R ++ c).drop ((gs.take k).map FrameToBytes).flatten.length) hwf2 hasm2 hjoin3 hnext
    rw [this, ← msgAfterList_append, List.append_assoc, List.take_append_drop]

/-! ## Helper lemmas: fragmentation -/

/-- Length of any encoding, in terms of the length-class bytes, mask bytes
and payload length, exactly as the source computes the buffer size. -/
theorem FrameToBytes_length_eq (f : Frame) :
    (FrameToBytes f).length =
      2 + payloadLenBytes f.PayloadLength + (if f.Mask then 4 else 0) +
        f.PayloadLength.toNat := by
  unfold FrameToBytes payloadLenBytes
  rcases hM : f.Mask <;>
    split_ifs <;>
      simp [copyFill_length, putU64_length, List.length_append] <;> omega

/-- Encoded byte 1 of an unmasked frame with a consistent payload length has
the mask bit clear. -/
theorem FrameToBytes_maskBit (f : Frame) (hm : f.Mask = false)
    (hpl : f.PayloadLength = (f.Payload.length : Int)) :
    ((FrameToBytes f).getD 1 0) &&& 128 = 0 := by
  unfold FrameToBytes
  rw [hm]
  simp only [Bool.false_eq_true, if_false, ite_false, if_neg, List.nil_append]
  split_ifs <;>
    simp only [List.getD_cons_succ, List.getD_cons_zero] <;>
      first
        | decide
        | (rw [Nat.zero_or]
           apply land_128_eq_zero
           unfold byteOfInt
           omega)

theorem unmaskedOnWire_of (f : Frame) (hm : f.Mask = false)
    (hpl : f.PayloadLength = (f.Payload.length : Int)) : unmaskedOnWire f := by
  refine ⟨hm, FrameToBytes_maskBit f hm hpl, ?_⟩
  rw [FrameToBytes_length_eq, hm]
  simp

/-! ## Claims -/

/-- Claim C1: every frame the server emits on the wire is unmasked — every
control frame built by NewCloseFrame, NewPingFrame or NewPongFrame and every
data frame produced by msgToFrames has Mask = false, so its encoded byte 1
has the high (mask) bit clear and no 4-byte mask key is appended (the
encoding is exactly base header + extended length + payload). -/
theorem claim_C1 :
    (∀ st re f, NewCloseFrame st re = .ok f → unmaskedOnWire f) ∧
    (∀ b f, NewPingFrame b = .ok f → unmaskedOnWire f) ∧
    (∀ b f, NewPongFrame b = .ok f → unmaskedOnWire f) ∧
    (∀ (o : Nat) (msg : List Nat) (fs : Int) (frames : List Frame),
      msgToFramesCore o msg fs = .ok frames → ∀ fr ∈ frames, unmaskedOnWire fr) := by
  refine ⟨?_, ?_, ?_, ?_⟩
  · intro st re f h
    unfold NewCloseFrame at h
    split_ifs at h
    injection h with h
    subst h
    exact unmaskedOnWire_of _ rfl rfl
  · intro b f h
    unfold NewPingFrame at h
    split_ifs at h
    injection h with h
    subst h
    exact unmaskedOnWire_of _ rfl rfl
  · intro b f h
    unfold NewPongFrame at h
    split_ifs at h
    injection h with h
    subst h
    exact unmaskedOnWire_of _ rfl rfl
  · intro o msg fs frames h fr hfr
    unfold msgToFramesCore at h
    split_ifs at h
    · injection h with h
      subst h
      simp only [List.mem_singleton] at hfr
      subst hfr
      exact unmaskedOnWire_of _ rfl rfl
    · injection h with h
      subst h
      obtain ⟨i, hi, rfl⟩ := List.mem_map.mp hfr
      exact unmaskedOnWire_of _ rfl rfl

/-- Witness for C1 at a concrete input: the empty-body ping frame. -/
theorem claim_C1_witness :
    NewPingFrame [] = .ok (NewFrame 9 [] true false (0, 0, 0, 0)) ∧
    unmaskedOnWire (NewFrame 9 [] true false (0, 0, 0, 0)) :=
  ⟨rfl, claim_C1.2.1 [] _ rfl⟩

/-- Counterexample to claim C2 as stated: the header 0x70 0x00 has all three
RSV bits set, yet BytesToFrame returns a frame, not an error. -/
theorem claim_C2_counterexample :
    BytesToFrame [112, 0] =
      .ok { FIN := false, Opcode := 0, Mask := false, MaskKey := (0, 0, 0, 0),
            Payload := [], PayloadLength := 0 } := by
  decide

set_option maxRecDepth 4000 in
/-- Claim C2, amended: BytesToFrame performs no semantic validation.  A
header with RSV bits set decodes to a frame (the RSV bits are never
examined); a control frame with FIN = false, and one with a declared length
over 125, both decode to frames; and an 8-byte extended length with its
high bit set does not produce a returned error at all — the length becomes
negative and the payload allocation panics. -/
theorem claim_C2 :
    BytesToFrame [112, 0] =
      .ok { FIN := false, Opcode := 0, Mask := false, MaskKey := (0, 0, 0, 0),
            Payload := [], PayloadLength := 0 } ∧
    BytesToFrame [8, 2, 65, 66] =
      .ok { FIN := false, Opcode := 8, Mask := false, MaskKey := (0, 0, 0, 0),
            Payload := [65, 66], PayloadLength := 2 } ∧
    BytesToFrame (9 :: 126 :: 0 :: 200 :: List.replicate 200 7) =
      .ok { FIN := false, Opcode := 9, Mask := false, MaskKey := (0, 0, 0, 0),
            Payload := List.replicate 200 7, PayloadLength := 200 } ∧
    BytesToFrame [130, 127, 128, 0, 0, 0, 0, 0, 0, 0] =
      .panicked "makeslice: len out of range" := by
  refine ⟨by decide, by decide, ?_, by decide⟩
  rfl

/-- Claim C3 (code bug): processFrame never consults the per-message size
ceiling.  With maxMessageSize = 1, a text frame with a 2-byte payload and an
empty assembly buffer would have to trigger Close(1009); instead the payload
is appended and no Close call is made. -/
theorem claim_C3 :
    processFrame { FIN := false, Opcode := 1, Mask := false, MaskKey := (0, 0, 0, 0),
                   Payload := [65, 66], PayloadLength := 2 } [] =
      { msg := [65, 66], closeCall := none, pongSent := none, delivered := none,
        errored := false, closeFrameHandled := false } ∧
    ([] : List Nat).length + [65, 66].length > 1 := by
  decide

/-- Claim C4: codec round trip — for every unmasked frame satisfying the
frame invariants, decoding its encoding succeeds and returns the frame
itself. -/
theorem claim_C4 (f : Frame) (hinv : FrameInvariants f) (hm : f.Mask = false) :
    BytesToFrame (FrameToBytes f) = .ok f := by
  obtain ⟨hopset, _, hpl, hbig, hkey⟩ := hinv
  have hop : f.Opcode < 16 := by
    rcases hopset with h | h | h | h | h | h <;> omega
  have := BytesToFrame_FrameToBytes f [] hop hpl (by omega) hm (hkey hm)
  simpa using this

/-- Witness for C4 at a concrete input: a FIN text frame with payload "Hi". -/
theorem claim_C4_witness :
    FrameInvariants { FIN := true, Opcode := 1, Mask := false, MaskKey := (0, 0, 0, 0),
                      Payload := [72, 105], PayloadLength := 2 } ∧
    BytesToFrame (FrameToBytes { FIN := true, Opcode := 1, Mask := false,
                                  MaskKey := (0, 0, 0, 0), Payload := [72, 105],
                                  PayloadLength := 2 }) =
      .ok { FIN := true, Opcode := 1, Mask := false, MaskKey := (0, 0, 0, 0),
            Payload := [72, 105], PayloadLength := 2 } :=
  ⟨by decide, claim_C4 _ (by decide) rfl⟩

/-- Counterexample to claim C5 as stated: a valid close frame followed by a
valid text frame, fed as one chunk.  The reader dispatches only the close
frame — processFrame returns the non-nil error of handleCloseFrame and the
read loop of handleConnection returns, leaving the text frame's bytes
unread — so the dispatched list is not the full frame sequence. -/
theorem claim_C5_counterexample :
    wfStream 16384 { FIN := true, Opcode := 8, Mask := false, MaskKey := (0, 0, 0, 0),
                     Payload := [], PayloadLength := 0 } ∧
    wfStream 16384 { FIN := true, Opcode := 1, Mask := false, MaskKey := (0, 0, 0, 0),
                     Payload := [65], PayloadLength := 1 } ∧
    ([[136, 0, 129, 1, 65]] : List (List Nat)).flatten =
      ([{ FIN := true, Opcode := 8, Mask := false, MaskKey := (0, 0, 0, 0),
          Payload := [], PayloadLength := 0 },
        { FIN := true, Opcode := 1, Mask := false, MaskKey := (0, 0, 0, 0),
          Payload := [65], PayloadLength := 1 }].map FrameToBytes).flatten ∧
    feedChunks 16384 [[136, 0, 129, 1, 65]] =
      ([{ FIN := true, Opcode := 8, Mask := false, MaskKey := (0, 0, 0, 0),
          Payload := [], PayloadLength := 0 }], [], [129, 1, 65],
        some ReadEvent.processError) := by
  refine ⟨by decide, by decide, by decide, by decide⟩

/-- Claim C5, amended: chunking invariance holds for every finite sequence of
well-formed unmasked frames whose encodings each fit in maxFrameSize and on
which the message assembler never errors (no close frame, no
out-of-sequence data frame): for every partition of the concatenated
encodings into TCP chunks fed one at a time, the read loop of
handleConnection dispatches exactly those frames, once each, in wire order,
retaining the unconsumed remainder between chunks, ending with an empty
buffer and no stopping event; a frame on which processFrame errors stops
the loop at that frame, and later frames are never dispatched. -/
theorem claim_C5 (max : Int) (frames : List Frame) (chunks : List (List Nat))
    (hwf : ∀ f ∈ frames, wfStream max f)
    (hasm : assemblyOk [] frames = true)
    (hchunks : chunks.flatten = (frames.map FrameToBytes).flatten) :
    feedChunks max chunks = (frames, msgAfterList [] frames, [], none) := by
  unfold feedChunks
  have h := feedChunks_go max chunks frames [] [] [] hwf hasm (by simpa using hchunks)
    (fun g _ => by
      have := two_le_FrameToBytes_length g
      simp only [List.length_nil]
      omega)
  simpa using h

/-- Witness for C5 at a concrete input: a 2-byte text frame and a 1-byte
binary frame, their 7 encoded bytes split into chunks of 1, 2, 3 and 1
bytes. -/
theorem claim_C5_witness :
    feedChunks 16384 [[129], [2, 65], [66, 130, 1], [67]] =
      ([{ FIN := true, Opcode := 1, Mask := false, MaskKey := (0, 0, 0, 0),
          Payload := [65, 66], PayloadLength := 2 },
        { FIN := true, Opcode := 2, Mask := false, MaskKey := (0, 0, 0, 0),
          Payload := [67], PayloadLength := 1 }], [], [], none) :=
  claim_C5 16384
    [{ FIN := true, Opcode := 1, Mask := false, MaskKey := (0, 0, 0, 0),
       Payload := [65, 66], PayloadLength := 2 },
     { FIN := true, Opcode := 2, Mask := false, MaskKey := (0, 0, 0, 0),
       Payload := [67], PayloadLength := 1 }]
    [[129], [2, 65], [66, 130, 1], [67]] (by decide) (by decide) (by decide)

/-- Counterexample to claim C6 as stated: for the masked frame with key
(1,0,0,0) and payload [255], the byte written in the payload region of the
encoding is the raw 255, not 255 XOR 1. -/
theorem claim_C6_counterexample :
    FrameToBytes { FIN := true, Opcode := 1, Mask := true, MaskKey := (1, 0, 0, 0),
                   Payload := [255], PayloadLength := 1 } =
      [129, 129, 1, 0, 0, 0, 255] ∧
    (FrameToBytes { FIN := true, Opcode := 1, Mask := true, MaskKey := (1, 0, 0, 0),
                    Payload := [255], PayloadLength := 1 }).getD 6 0 ≠
      255 ^^^ maskKeyAt (1, 0, 0, 0) (0 % 4) := by
  decide

/-- Claim C6, amended: FrameToBytes never applies the mask — for every frame
whose declared length matches its payload, the payload region of the
encoding (after the headers and, when masked, the 4 emitted mask-key bytes)
is the payload itself, byte for byte, with no XOR; the in-memory Payload is
likewise untouched. -/
theorem claim_C6 (f : Frame) (hpl : f.PayloadLength = (f.Payload.length : Int)) :
    (FrameToBytes f).drop
        (2 + payloadLenBytes f.PayloadLength + (if f.Mask then 4 else 0)) =
      f.Payload := by
  have hfill : copyFill f.PayloadLength.toNat f.Payload = f.Payload := by
    rw [hpl, Int.toNat_natCast]
    exact copyFill_self _
  rcases hM : f.Mask <;>
    (unfold FrameToBytes payloadLenBytes
     rw [hM]
     split_ifs) <;>
      first
        | (exfalso; assumption)
        | (simp [hfill]; done)
        | (simp only [hfill, List.nil_append]
           change List.drop 8
             (putU64 (f.PayloadLength % 2 ^ 64).toNat ++ f.Payload) = f.Payload
           rw [List.drop_left' (putU64_length _)])
        | (simp only [hfill]
           change List.drop 12
             (putU64 (f.PayloadLength % 2 ^ 64).toNat ++
               (f.MaskKey.1 :: f.MaskKey.2.1 :: f.MaskKey.2.2.1 :: f.MaskKey.2.2.2 ::
                 f.Payload)) = f.Payload
           rw [(show (12 : Nat) = 8 + 4 from rfl), ← List.drop_drop,
             List.drop_left' (putU64_length _)]
           rfl)

/-- Witness for C6 at a concrete input. -/
theorem claim_C6_witness :
    (FrameToBytes { FIN := true, Opcode := 1, Mask := true, MaskKey := (1, 0, 0, 0),
                    Payload := [255], PayloadLength := 1 }).drop
        (2 + payloadLenBytes (1 : Int) + 4) = [255] := by
  have h := claim_C6 { FIN := true, Opcode := 1, Mask := true, MaskKey := (1, 0, 0, 0),
                       Payload := [255], PayloadLength := 1 } rfl
  simpa using h

/-- Claim C8: close-state monotonicity — in the order Open < Closing <
Closed, every operation that touches the close state (user Close with any
frame-build and write outcomes, an inbound close frame, the read-error path,
and the close timer) moves the state forward or leaves it unchanged. -/
theorem claim_C8 (e : CloseEvent) (s : CloseState) :
    closeStateRank s ≤ closeStateRank (closeStep e s) := by
  rcases e with ⟨a, b⟩ | _ | _ | _ <;> cases s <;>
    first
      | (cases a <;> cases b <;> decide)
      | decide

/-- Witness for C8 at a concrete input: the user-initiated Close on an open
connection with a successful write. -/
theorem claim_C8_witness :
    closeStateRank .StateOpen ≤
      closeStateRank (closeStep (.userClose true true) .StateOpen) :=
  claim_C8 (.userClose true true) .StateOpen

/-- Counterexample to claim C9 as stated: with frame size 0 the call does
not return an error value to the caller — the model of msgToFrames panics,
mirroring the Go panic that aborts the program. -/
theorem claim_C9_counterexample :
    msgToFramesCore 2 [18, 52] 0 = .panicked "frame size must be positive" := by
  decide

/-- Claim C9, amended: for every message and every frameSize <= 0 the
fragmentation entry points panic with the message "frame size must be
positive" (aborting the program), rather than returning a BadFrameSize
error synchronously. -/
theorem claim_C9 (o : Nat) (msg : List Nat) (fs : Int) (h : fs ≤ 0) :
    msgToFramesCore o msg fs = .panicked "frame size must be positive" := by
  unfold msgToFramesCore
  rw [if_pos h]

/-- Witness for C9 at a concrete input. -/
theorem claim_C9_witness :
    msgToFramesCore 1 [] (-3) = .panicked "frame size must be positive" :=
  claim_C9 1 [] (-3) (by decide)

/-- Claim C10 (code bug): frameSize is not total and safe — on a 10-byte
unmasked header whose 8-byte extended length has the high bit set, it
returns 10 - 2^63, a negative value that is neither -1 nor -2, bypassing
the oversize check; handleConnection then slices the buffer with that
negative size, a runtime panic. -/
theorem claim_C10 :
    frameSize [130, 127, 128, 0, 0, 0, 0, 0, 0, 0] 16384 = 10 - 2 ^ 63 ∧
    (10 - 2 ^ 63 : Int) < -2 ∧
    processBuffer 16384 [] [130, 127, 128, 0, 0, 0, 0, 0, 0, 0] =
      ([], [], [130, 127, 128, 0, 0, 0, 0, 0, 0, 0], some .slicePanic) := by
  refine ⟨by decide, by decide, by decide⟩

end SimpleWS
